import Mathlib

set_option autoImplicit false

/-!
Shallow embedding of `src/app.py` (ProteinScape): the sequence validator,
the ESMFold prediction client, FASTA parsing, the amino-acid composition
counter, and the single- and batch-prediction Streamlit branches.
Python strings are modelled as `List Char`.
-/

namespace ProteinScape

/-- The character class of the validation regex in `validate_sequence`
(`src/app.py` line 31): the 20 standard amino-acid letters, both cases. -/
def validAminoChars : List Char :=
  "ACDEFGHIKLMNPQRSTVWYacdefghiklmnpqrstvwy".toList

def isValidAminoChar (c : Char) : Bool :=
  validAminoChars.contains c

/-- Remove one final newline if the string ends with one (the position
where Python's unanchored-`$` can place the match end). -/
def stripFinalNewline (s : List Char) : List Char :=
  if s.getLast? = some '\n' then s.dropLast else s

/-- `validate_sequence` (`src/app.py` lines 29-35): it returns `True` iff
`re.match(r'^[ACDEFGHIKLMNPQRSTVWYacdefghiklmnpqrstvwy]+$', sequence)`
matches.  Without `re.MULTILINE`, Python's `$` matches at the end of the
string or just before a newline that ends the string, so the pattern
matches exactly the strings that are a non-empty run of the 40 listed
characters optionally followed by one final newline. -/
def validate_sequence (s : List Char) : Bool :=
  !(stripFinalNewline s).isEmpty && (stripFinalNewline s).all isValidAminoChar

/-- Outcome of the single `requests.post` call in `predict_structure_api`
(`src/app.py` line 21): either the request raises a
`requests.exceptions.RequestException` carrying message `msg` (connection
failure or timeout), or a response arrives with an HTTP status code, a
reason phrase, and a UTF-8 decoded body. -/
inductive NetOutcome where
  | exn (msg : List Char)
  | response (status : Nat) (reason : List Char) (body : List Char)
deriving DecidableEq

/-- The statuses for which `Response.raise_for_status` raises
`requests.HTTPError` (4xx client errors and 5xx server errors). -/
def httpStatusIsError (status : Nat) : Bool :=
  (400 ≤ status && status < 500) || (500 ≤ status && status < 600)

/-- The message of the `requests.HTTPError` raised by
`Response.raise_for_status` for a 4xx or 5xx status. -/
def httpErrorText (status : Nat) (reason : List Char) : List Char :=
  (toString status).toList ++
    (if status < 500 then " Client Error: " else " Server Error: ").toList ++
    reason ++ " for url: https://api.esmatlas.com/foldSequence/v1/pdb/".toList

/-- `st.error(f"Error during prediction: {e}")` (`src/app.py` line 25). -/
def predictionErrorText (cause : List Char) : List Char :=
  "Error during prediction: ".toList ++ cause

/-- What one execution of the body of `predict_structure_api` produces:
the returned `pdb_content` (`None` on failure) together with the list of
`st.error` messages it emitted. -/
structure PredictResult where
  pdb : Option (List Char)
  errors : List (List Char)
deriving DecidableEq

/-- Body of `predict_structure_api` (`src/app.py` lines 15-27) as a
function of the outcome of its one outbound request: `raise_for_status`
turns a 4xx/5xx response into a `requests.HTTPError` (a subclass of
`RequestException`); any `RequestException` is reported via `st.error`
and the function returns `None`; otherwise the decoded body is returned
unchanged, with no inspection of its content. -/
def predict_structure_api (o : NetOutcome) : PredictResult :=
  match o with
  | .exn m => ⟨none, [predictionErrorText m]⟩
  | .response status reason body =>
      if httpStatusIsError status then
        ⟨none, [predictionErrorText (httpErrorText status reason)]⟩
      else
        ⟨some body, []⟩

/-- One call of the predictor run against the queue of pending network
outcomes: the single `requests.post` in the body consumes exactly the
first outcome and the rest of the queue is left untouched. -/
def predictOnTrace (trace : List NetOutcome) : PredictResult × List NetOutcome :=
  match trace with
  | [] => (⟨none, [predictionErrorText "no response".toList]⟩, [])
  | o :: rest => (predict_structure_api o, rest)

/-- State and observables of one call through the `@st.cache_resource`
wrapper around `predict_structure_api` (`src/app.py` line 14). -/
structure CachedCall where
  result : Option (List Char)
  cache : List (List Char × Option (List Char))
  requested : Bool
deriving DecidableEq

/-- `@st.cache_resource` memoisation: calls are keyed by the sequence
argument; on a hit the stored return value is served with no outbound
request, on a miss the body runs once and its return value (even `None`)
is stored. -/
def cachedPredict (cache : List (List Char × Option (List Char)))
    (oracle : List Char → NetOutcome) (seq : List Char) : CachedCall :=
  match cache.find? (fun p => p.1 == seq) with
  | some p => ⟨p.2, cache, false⟩
  | none =>
      ⟨(predict_structure_api (oracle seq)).pdb,
        cache ++ [(seq, (predict_structure_api (oracle seq)).pdb)], true⟩

/-- Python `str.upper()`, character by character (identical to
`Char.toUpper` on the inputs this program handles). -/
def pyUpper (s : List Char) : List Char :=
  s.map Char.toUpper

/-- One step of `collections.Counter` construction: Python dicts update an
existing key in place and append a new key at the end, so key order is the
first-appearance order of the keys. -/
def counterStep (acc : List (Char × Nat)) (c : Char) : List (Char × Nat) :=
  if acc.any (fun p => p.1 == c) then
    acc.map (fun p => if p.1 == c then (p.1, p.2 + 1) else p)
  else
    acc ++ [(c, 1)]

/-- `collections.Counter(s)` as an insertion-ordered association list. -/
def pyCounter (s : List Char) : List (Char × Nat) :=
  s.foldl counterStep []

/-- The mapping that `plot_amino_acid_distribution` (`src/app.py` lines
47-52) draws its bar chart from: `Counter(sequence.upper())`, with keys
and values read off in dict order. -/
def describeComposition (s : List Char) : List (Char × Nat) :=
  pyCounter (pyUpper s)

/-- Python `str.split(sep)` for a one-character separator: splits at every
occurrence of the separator, keeping empty pieces; the result is never the
empty list (`"".split(sep) == [""]`). -/
def pySplitOn (c : Char) : List Char → List (List Char)
  | [] => [[]]
  | x :: xs =>
      if x = c then [] :: pySplitOn c xs
      else
        match pySplitOn c xs with
        | [] => [[x]]
        | y :: ys => (x :: y) :: ys

/-- Python `r.partition('\n')[2]`: everything after the first newline, or
the empty string when the record has no newline at all. -/
def pyAfterFirstNewline (r : List Char) : List Char :=
  (r.dropWhile (fun c => c != '\n')).drop 1

/-- Python `seq.replace('\n', '')`. -/
def stripNewlines (r : List Char) : List Char :=
  r.filter (fun c => c != '\n')

/-- The body extracted from one `>`-delimited record
(`src/app.py` lines 163 and 166). -/
def recordBody (r : List Char) : List Char :=
  stripNewlines (pyAfterFirstNewline r)

/-- The batch-branch FASTA parse (`src/app.py` lines 160-166):
`input.split('>')[1:]`, then each record is reduced to
`record.partition('\n')[2].replace('\n', '')`. -/
def parse_fasta (input : List Char) : List (List Char) :=
  ((pySplitOn '>' input).drop 1).map recordBody

/-- Python truthiness of the `pdb_str` value, which is `None` or a string
(`if pdb_str:` at `src/app.py` lines 117 and 187). -/
def pyTruthy : Option (List Char) → Bool
  | none => false
  | some s => !s.isEmpty

/-- What happens to one sequence in the batch loop
(`src/app.py` lines 175-214).  `notRendered` covers the case where
`pdb_str` is falsy after the prediction call: `None` after a reported
failure, or (vacuously for the real API) an empty response body, which the
code silently skips without appending to `valid_sequences`. -/
inductive SeqResult where
  | tooLong
  | invalidChars
  | notRendered (errors : List (List Char))
  | rendered (pdb : List Char)
deriving DecidableEq

/-- The loop body for one sequence of the batch: the length check comes
first (`src/app.py` line 176), then character validation (line 179), then
the prediction; the structure is rendered, offered for download and the
sequence appended to `valid_sequences` only when `pdb_str` is truthy. -/
def processOne (oracle : List Char → NetOutcome) (seq : List Char) : SeqResult :=
  if seq.length > 1500 then .tooLong
  else if !validate_sequence seq then .invalidChars
  else if pyTruthy (predict_structure_api (oracle seq)).pdb then
    .rendered ((predict_structure_api (oracle seq)).pdb.getD [])
  else
    .notRendered (predict_structure_api (oracle seq)).errors

/-- The `st.warning` text reported for a skipped sequence at position
`idx` of the batch (`src/app.py` lines 177 and 180); `none` when the
sequence was not skipped by validation. -/
def batchWarning (idx : Nat) : SeqResult → Option (List Char)
  | .tooLong =>
      some ("Sequence ".toList ++ (toString (idx + 1)).toList ++
        " is too long and will be skipped (max length: 1500 characters).".toList)
  | .invalidChars =>
      some ("Sequence ".toList ++ (toString (idx + 1)).toList ++
        " contains invalid characters and will be skipped.".toList)
  | .notRendered _ => none
  | .rendered _ => none

/-- The batch loop (`src/app.py` line 175): every sequence of the batch is
processed, each independently of the others. -/
def processBatch (oracle : List Char → NetOutcome) (seqs : List (List Char)) :
    List SeqResult :=
  seqs.map (processOne oracle)

/-- Did this sequence end up rendered (appended to `valid_sequences`)? -/
def isRendered : SeqResult → Bool
  | .rendered _ => true
  | _ => false

/-- `len(valid_sequences)`: the number of sequences that were rendered. -/
def countRendered (results : List SeqResult) : Nat :=
  results.countP isRendered

/-- The final summary line (`src/app.py` lines 216-217): shown only when
`valid_sequences` is non-empty, and then reads
`Successfully processed {count} out of {total} sequences.`. -/
def batchSummary (results : List SeqResult) (total : Nat) : Option (Nat × Nat) :=
  if countRendered results > 0 then some (countRendered results, total) else none

/-- Did the prediction step succeed for this sequence (it reached the
prediction and the call returned a body rather than an error)? -/
def predictionSucceeds (oracle : List Char → NetOutcome) (seq : List Char) : Bool :=
  decide (seq.length ≤ 1500) && validate_sequence seq &&
    (predict_structure_api (oracle seq)).pdb.isSome

/-- Observable outcome of the whole batch branch. -/
inductive BatchOutput where
  | noSequences
  | processed (results : List SeqResult) (summary : Option (Nat × Nat))
deriving DecidableEq

/-- The batch branch on a text-area input (`src/app.py` lines 164-219):
parse, and if no sequences were extracted warn
`Please upload a valid FASTA file or enter sequences in the provided text
area.`; otherwise run the loop and report the summary. -/
def batchRun (oracle : List Char → NetOutcome) (input : List Char) : BatchOutput :=
  if (parse_fasta input).isEmpty then .noSequences
  else
    .processed (processBatch oracle (parse_fasta input))
      (batchSummary (processBatch oracle (parse_fasta input)) (parse_fasta input).length)

/-- `st.warning("Please enter a valid protein sequence.")`
(`src/app.py` line 122). -/
def emptyInputWarning : List Char :=
  "Please enter a valid protein sequence.".toList

/-- `st.warning` for an invalid single-mode sequence (`src/app.py` line 120). -/
def invalidSequenceWarning : List Char :=
  ("Invalid sequence. Please enter a valid protein sequence containing " ++
    "only standard amino acid characters.").toList

/-- Observables of one run of the single-prediction page. -/
structure SingleOutput where
  warnings : List (List Char)
  errors : List (List Char)
  structureShown : Bool
  downloadOffered : Bool
  compositionPlotShown : Bool
  ramachandranShown : Bool
  sessionPdb : Option (List Char)
deriving DecidableEq

/-- One run of the single-prediction branch with the button pressed
(`src/app.py` lines 103-150).  The submission block (lines 112-122) may
store a truthy `pdb_str` in `st.session_state`; the structure view and the
download button appear whenever the session holds one (lines 125-141); the
two plots appear whenever the current input text is truthy and validates
(lines 144-150), independently of the prediction outcome. -/
def singleMode (sessionPdb : Option (List Char))
    (oracle : List Char → NetOutcome) (input : List Char) : SingleOutput :=
  let afterSubmit : Option (List Char) × List (List Char) × List (List Char) :=
    if !input.isEmpty then
      if validate_sequence input then
        if pyTruthy (predict_structure_api (oracle input)).pdb then
          ((predict_structure_api (oracle input)).pdb, [],
            (predict_structure_api (oracle input)).errors)
        else
          (sessionPdb, [], (predict_structure_api (oracle input)).errors)
      else (sessionPdb, [invalidSequenceWarning], [])
    else (sessionPdb, [emptyInputWarning], [])
  { warnings := afterSubmit.2.1
    errors := afterSubmit.2.2
    structureShown := afterSubmit.1.isSome
    downloadOffered := afterSubmit.1.isSome
    compositionPlotShown := !input.isEmpty && validate_sequence input
    ramachandranShown := !input.isEmpty && validate_sequence input
    sessionPdb := afterSubmit.1 }

/-- Does `seen` already hold the character `c`? -/
def seenHas (seen : List Char) (c : Char) : Bool :=
  seen.any (fun x => x == c)

/-- First-appearance traversal: emit each character of the input the first
time it is met, skipping characters already in `seen`. -/
def firstOccAux (seen : List Char) : List Char → List Char
  | [] => []
  | c :: cs =>
      if seenHas seen c then firstOccAux seen cs
      else c :: firstOccAux (seen ++ [c]) cs

/-- First-appearance order of the elements of a list: each element is kept
at the position of its first occurrence and its later duplicates are
dropped.  Reference formulation for the key order of `pyCounter`. -/
def firstOccurrences (l : List Char) : List Char :=
  firstOccAux [] l

/-- The effect of one `counterStep` on the key list alone. -/
def keysStep (keys : List Char) (c : Char) : List Char :=
  if seenHas keys c then keys else keys ++ [c]

/-- Count held in an association list for key `c` (0 when absent). -/
def lookupCnt : List (Char × Nat) → Char → Nat
  | [], _ => 0
  | p :: ps, c => if p.1 = c then p.2 else lookupCnt ps c

/-- Header/body pairs rendered back into FASTA text: each record is the
`>` marker, the header line, a newline, and the body text. -/
def mkFastaRecord (p : List Char × List Char) : List Char :=
  '>' :: (p.1 ++ '\n' :: p.2)

def mkFasta (records : List (List Char × List Char)) : List Char :=
  (records.map mkFastaRecord).flatten

/-- A network in which every request succeeds with a fixed PDB body. -/
def okOracle : List Char → NetOutcome :=
  fun _ => .response 200 "OK".toList "HEADER PDB".toList

/-- A network in which every request fails with a connection error. -/
def failOracle : List Char → NetOutcome :=
  fun _ => .exn "Connection aborted.".toList

/-- A network that fails exactly on the sequence `CCCC` and succeeds on
every other sequence. -/
def demoOracle : List Char → NetOutcome := fun s =>
  if s == "CCCC".toList then .exn "Connection aborted.".toList
  else .response 200 "OK".toList "HEADER PDB".toList

/-! ## Supporting lemmas -/

theorem dropWhile_append_all {α : Type} {p : α → Bool} (l m : List α)
    (h : ∀ x ∈ l, p x = true) :
    (l ++ m).dropWhile p = m.dropWhile p := by
  induction l with
  | nil => rfl
  | cons a t ih =>
      simp only [List.cons_append, List.dropWhile_cons, h a (by simp)]
      exact ih fun x hx => h x (by simp [hx])

theorem pySplitOn_ne_nil (c : Char) (l : List Char) : pySplitOn c l ≠ [] := by
  induction l with
  | nil => simp [pySplitOn]
  | cons x xs ih =>
      rw [pySplitOn]
      split
      · simp
      · split
        · simp
        · simp

theorem pySplitOn_no_sep (c : Char) (l : List Char) (h : ∀ x ∈ l, x ≠ c) :
    pySplitOn c l = [l] := by
  induction l with
  | nil => rfl
  | cons x xs ih =>
      rw [pySplitOn]
      rw [if_neg (h x (by simp))]
      rw [ih fun y hy => h y (by simp [hy])]

theorem pySplitOn_append_sep (c : Char) (l m : List Char) (h : ∀ x ∈ l, x ≠ c) :
    pySplitOn c (l ++ c :: m) = l :: pySplitOn c m := by
  induction l with
  | nil => simp [pySplitOn]
  | cons x xs ih =>
      rw [List.cons_append, pySplitOn, if_neg (h x (by simp)),
        ih fun y hy => h y (by simp [hy])]

theorem pySplitOn_prefix (c : Char) (pre : List Char) (h : ∀ x ∈ pre, x ≠ c) (s : List Char) :
    ∃ hd tl, pySplitOn c s = hd :: tl ∧ pySplitOn c (pre ++ s) = (pre ++ hd) :: tl := by
  induction pre with
  | nil =>
      match hs : pySplitOn c s with
      | [] => exact absurd hs (pySplitOn_ne_nil c s)
      | hd :: tl => exact ⟨hd, tl, rfl, by simp [hs]⟩
  | cons x xs ih =>
      obtain ⟨hd, tl, h1, h2⟩ := ih fun y hy => h y (by simp [hy])
      refine ⟨hd, tl, h1, ?_⟩
      rw [List.cons_append, pySplitOn, if_neg (h x (by simp)), h2]
      simp

/-! ## Claim theorems -/

/-- Claim C1 (code bug): the spec requires `validate` to return false for
every string containing a character outside the 20 amino-acid letters,
a trailing newline included, and the docstring of `validate_sequence`
says it validates that "the sequence contains only valid amino acid
characters".  But Python's `$` (without `re.MULTILINE`) also matches just
before a newline that ends the string, so `validate_sequence("MKT\n")`
returns `True` even though `'\n'` is not an amino-acid letter; the empty
string is still rejected. -/
theorem validate_trailing_newline_eval :
    validate_sequence "MKT\n".toList = true ∧
    "MKT\n".toList.all isValidAminoChar = false ∧
    validate_sequence [] = false := by
  decide

/-- Claim C2: one call of the predictor consumes exactly one outcome of the
network queue (a single outbound request, no retry); a raised
`RequestException` or a 4xx/5xx status yields no structure and exactly one
`st.error` whose text carries the description of the cause; any other
response yields its body verbatim, whatever its content (no structural
validation), and no error. -/
theorem predict_request_and_result (o : NetOutcome) (rest : List NetOutcome) :
    (predictOnTrace (o :: rest)).2 = rest ∧
    (∀ m, o = .exn m →
      (predictOnTrace (o :: rest)).1 = ⟨none, [predictionErrorText m]⟩) ∧
    (∀ status reason body, o = .response status reason body →
      httpStatusIsError status = true →
      (predictOnTrace (o :: rest)).1 =
        ⟨none, [predictionErrorText (httpErrorText status reason)]⟩) ∧
    (∀ status reason body, o = .response status reason body →
      httpStatusIsError status = false →
      (predictOnTrace (o :: rest)).1 = ⟨some body, []⟩) := by
  refine ⟨rfl, ?_, ?_, ?_⟩
  · intro m hm
    subst hm
    rfl
  · intro status reason body hm herr
    subst hm
    simp [predictOnTrace, predict_structure_api, herr]
  · intro status reason body hm herr
    subst hm
    simp [predictOnTrace, predict_structure_api, herr]

theorem predict_request_and_result_witness :
    (predictOnTrace [NetOutcome.exn "Connection timed out".toList,
        NetOutcome.response 200 "OK".toList "HEADER PDB".toList]).2 =
      [NetOutcome.response 200 "OK".toList "HEADER PDB".toList] ∧
    (predictOnTrace [NetOutcome.exn "Connection timed out".toList,
        NetOutcome.response 200 "OK".toList "HEADER PDB".toList]).1 =
      ⟨none, [predictionErrorText "Connection timed out".toList]⟩ :=
  ⟨(predict_request_and_result _ _).1,
    (predict_request_and_result _ _).2.1 _ rfl⟩

/-- Claim C7: with the `st.cache_resource` memoisation, predicting the same
sequence twice in one session returns equal results both times, the second
call issues no outbound request, and the (memoised) result equals the
result of a fresh call of the client body. -/
theorem cached_predict_repeat (cache : List (List Char × Option (List Char)))
    (oracle : List Char → NetOutcome) (seq : List Char)
    (h : cache.find? (fun p => p.1 == seq) = none) :
    (cachedPredict (cachedPredict cache oracle seq).cache oracle seq).result =
      (cachedPredict cache oracle seq).result ∧
    (cachedPredict (cachedPredict cache oracle seq).cache oracle seq).requested = false ∧
    (cachedPredict cache oracle seq).result = (predict_structure_api (oracle seq)).pdb := by
  have h1 : cachedPredict cache oracle seq =
      ⟨(predict_structure_api (oracle seq)).pdb,
        cache ++ [(seq, (predict_structure_api (oracle seq)).pdb)], true⟩ := by
    rw [cachedPredict, h]
  have h2 : (cache ++ [(seq, (predict_structure_api (oracle seq)).pdb)]).find?
      (fun p => p.1 == seq) = some (seq, (predict_structure_api (oracle seq)).pdb) := by
    rw [List.find?_append, h]
    simp
  rw [h1]
  refine ⟨?_, ?_, rfl⟩
  · rw [cachedPredict, h2]
  · rw [cachedPredict, h2]

theorem cached_predict_repeat_witness :
    (cachedPredict (cachedPredict [] okOracle "AAAA".toList).cache okOracle "AAAA".toList).result =
      (cachedPredict [] okOracle "AAAA".toList).result ∧
    (cachedPredict (cachedPredict [] okOracle "AAAA".toList).cache okOracle "AAAA".toList).requested
      = false ∧
    (cachedPredict [] okOracle "AAAA".toList).result =
      (predict_structure_api (okOracle "AAAA".toList)).pdb :=
  cached_predict_repeat [] okOracle "AAAA".toList rfl

/-- Claim C4: in the batch loop the length check comes first: every
sequence longer than 1500 characters is skipped as too long no matter what
characters it holds; a sequence of length at most 1500 proceeds to
character validation and is skipped as invalid exactly when
`validate_sequence` rejects it; and the two reported warning texts are
distinct. -/
theorem batch_length_check (oracle : List Char → NetOutcome) (seq : List Char) :
    (seq.length > 1500 → processOne oracle seq = .tooLong) ∧
    (seq.length ≤ 1500 → validate_sequence seq = false →
      processOne oracle seq = .invalidChars) ∧
    (seq.length ≤ 1500 → validate_sequence seq = true →
      processOne oracle seq ≠ .tooLong ∧ processOne oracle seq ≠ .invalidChars) ∧
    (∀ idx, batchWarning idx .tooLong ≠ batchWarning idx .invalidChars) := by
  refine ⟨?_, ?_, ?_, ?_⟩
  · intro hlong
    rw [processOne, if_pos hlong]
  · intro hlen hval
    rw [processOne, if_neg (by omega), hval]
    rfl
  · intro hlen hval
    rw [processOne, if_neg (by omega), hval]
    constructor <;> (simp only [Bool.not_true, Bool.false_eq_true, if_false]; split <;> simp)
  · intro idx h
    rw [batchWarning, batchWarning] at h
    have h2 := List.append_cancel_left (Option.some.inj h)
    exact absurd h2 (by decide)

theorem batch_length_check_witness :
    processOne okOracle (List.replicate 1501 '1') = SeqResult.tooLong :=
  (batch_length_check okOracle (List.replicate 1501 '1')).1
    (by rw [List.length_replicate]; omega)

/-- Claim C8, counterexample: in a fresh session, submitting the valid
default sequence while the network fails surfaces the prediction error and
renders no structure view and no download, yet the two derived plots are
still produced for that submission, because `src/app.py` lines 144-150
gate the plots only on the input text being non-empty and valid.  So "no
derived plots are produced" is false as stated. -/
theorem single_failed_prediction_still_plots :
    (singleMode none failOracle "MKTAYIAKQRQISFVKSHFSRQDILDLWQYFSYGRAL".toList).errors =
      [predictionErrorText "Connection aborted.".toList] ∧
    (singleMode none failOracle "MKTAYIAKQRQISFVKSHFSRQDILDLWQYFSYGRAL".toList).structureShown
      = false ∧
    (singleMode none failOracle "MKTAYIAKQRQISFVKSHFSRQDILDLWQYFSYGRAL".toList).downloadOffered
      = false ∧
    (singleMode none failOracle
        "MKTAYIAKQRQISFVKSHFSRQDILDLWQYFSYGRAL".toList).compositionPlotShown = true ∧
    (singleMode none failOracle
        "MKTAYIAKQRQISFVKSHFSRQDILDLWQYFSYGRAL".toList).ramachandranShown = true := by
  decide

/-- Claim C8 as amended: in a fresh session, an empty input or an invalid
input is answered with the corresponding warning and nothing is rendered at
all; a failed prediction of a valid input surfaces the prediction error and
produces no structure view and no download artifact, but the two derived
plots of the input sequence are still shown. -/
theorem single_mode_error_behaviour (oracle : List Char → NetOutcome) (input : List Char) :
    (input = [] →
      singleMode none oracle input =
        ⟨[emptyInputWarning], [], false, false, false, false, none⟩) ∧
    (input ≠ [] → validate_sequence input = false →
      singleMode none oracle input =
        ⟨[invalidSequenceWarning], [], false, false, false, false, none⟩) ∧
    (validate_sequence input = true →
      (predict_structure_api (oracle input)).pdb = none →
      singleMode none oracle input =
        ⟨[], (predict_structure_api (oracle input)).errors, false, false, true, true, none⟩ ∧
      (predict_structure_api (oracle input)).errors ≠ []) := by
  refine ⟨?_, ?_, ?_⟩
  · intro h
    subst h
    rfl
  · intro hne hval
    match input with
    | [] => exact absurd rfl hne
    | c :: t => simp [singleMode, hval]
  · intro hval hnone
    have hne : input ≠ [] := by
      intro h
      subst h
      exact absurd hval (by decide)
    constructor
    · match input with
      | [] => exact absurd rfl hne
      | c :: t => simp [singleMode, hval, hnone, pyTruthy]
    · match ho : oracle input with
      | .exn m => simp [predict_structure_api, ho]
      | .response status reason body =>
          rw [ho] at hnone
          by_cases herr : httpStatusIsError status = true
          · simp [predict_structure_api, herr]
          · simp [predict_structure_api, herr] at hnone

theorem single_mode_error_behaviour_witness :
    singleMode none failOracle "AAAA".toList =
      ⟨[], (predict_structure_api (failOracle "AAAA".toList)).errors,
        false, false, true, true, none⟩ ∧
    (predict_structure_api (failOracle "AAAA".toList)).errors ≠ [] :=
  (single_mode_error_behaviour failOracle "AAAA".toList).2.2 (by decide) rfl

/-- Claim C10: a `>`-record with no newline after its header, and a record
whose body after the header line is empty, both parse to the empty string;
in the batch loop the empty string passes the length check, fails
`validate_sequence`, and is reported with the invalid-characters warning —
the batch branch has no separate empty-input report. -/
theorem fasta_empty_record_processing (oracle : List Char → NetOutcome) :
    (∀ r, ('\n' : Char) ∉ r → recordBody r = []) ∧
    (∀ hdr, ('\n' : Char) ∉ hdr → recordBody (hdr ++ ['\n']) = []) ∧
    parse_fasta ">s1".toList = [[]] ∧
    validate_sequence [] = false ∧
    processOne oracle [] = SeqResult.invalidChars ∧
    (∀ idx, batchWarning idx (processOne oracle []) =
      some ("Sequence ".toList ++ (toString (idx + 1)).toList ++
        " contains invalid characters and will be skipped.".toList)) := by
  have hone : processOne oracle [] = SeqResult.invalidChars := rfl
  refine ⟨?_, ?_, by decide, by decide, hone, ?_⟩
  · intro r hr
    have hall : r.dropWhile (fun c => c != '\n') = [] := by
      rw [List.dropWhile_eq_nil_iff]
      intro x hx
      simp only [bne_iff_ne, ne_eq]
      intro h
      subst h
      exact hr hx
    rw [recordBody, pyAfterFirstNewline, hall]
    rfl
  · intro hdr hhdr
    rw [recordBody, pyAfterFirstNewline,
      dropWhile_append_all hdr ['\n'] ?_]
    · rfl
    · intro x hx
      simp only [bne_iff_ne, ne_eq]
      intro hxc
      subst hxc
      exact hhdr hx
  · intro idx
    rw [hone]
    rfl

theorem fasta_empty_record_processing_witness :
    recordBody "s1".toList = [] ∧
    recordBody ("header".toList ++ ['\n']) = [] ∧
    processOne okOracle [] = SeqResult.invalidChars :=
  ⟨(fasta_empty_record_processing okOracle).1 "s1".toList (by decide),
    (fasta_empty_record_processing okOracle).2.1 "header".toList (by decide),
    (fasta_empty_record_processing okOracle).2.2.2.2.1⟩

/-- Claim C9: any text before the first `>` marker is discarded by
`split('>')[1:]` and contributes no sequence; an input with no `>` at all
parses to the empty sequence list, and the batch branch then answers with
the no-sequences warning instead of processing any of the text. -/
theorem fasta_prefix_discarded :
    (∀ pre s, ('>' : Char) ∉ pre → parse_fasta (pre ++ s) = parse_fasta s) ∧
    (∀ s, ('>' : Char) ∉ s → parse_fasta s = []) ∧
    (∀ oracle s, ('>' : Char) ∉ s → batchRun oracle s = .noSequences) := by
  have h2 : ∀ s : List Char, ('>' : Char) ∉ s → parse_fasta s = [] := by
    intro s hs
    rw [parse_fasta, pySplitOn_no_sep '>' s fun x hx hc => hs (hc ▸ hx)]
    rfl
  refine ⟨?_, h2, ?_⟩
  · intro pre s hpre
    obtain ⟨hd, tl, hh1, hh2⟩ :=
      pySplitOn_prefix '>' pre (fun x hx hc => hpre (hc ▸ hx)) s
    rw [parse_fasta, parse_fasta, hh1, hh2]
    rfl
  · intro oracle s hs
    rw [batchRun, if_pos (by rw [h2 s hs]; rfl)]

theorem fasta_prefix_discarded_witness :
    parse_fasta ("junk text ".toList ++ ">a\nAAAA".toList) = parse_fasta ">a\nAAAA".toList ∧
    batchRun okOracle "no marker here".toList = BatchOutput.noSequences :=
  ⟨fasta_prefix_discarded.1 "junk text ".toList ">a\nAAAA".toList (by decide),
    fasta_prefix_discarded.2.2 okOracle "no marker here".toList (by decide)⟩

theorem recordBody_wellformed (hdr body : List Char) (hh : ('\n' : Char) ∉ hdr) :
    recordBody (hdr ++ '\n' :: body) = stripNewlines body := by
  have hall : ∀ x ∈ hdr, (x != '\n') = true := by
    intro x hx
    simp only [bne_iff_ne, ne_eq]
    intro h
    subst h
    exact hh hx
  have h1 : ('\n' :: body).dropWhile (fun c => c != '\n') = '\n' :: body := by
    rw [List.dropWhile_cons]
    simp
  rw [recordBody, pyAfterFirstNewline, dropWhile_append_all hdr ('\n' :: body) hall, h1,
    List.drop_one, List.tail_cons]

theorem pySplitOn_chunk_mkFasta (chunk : List Char) (records : List (List Char × List Char))
    (h : ('>' : Char) ∉ chunk) :
    pySplitOn '>' (chunk ++ mkFasta records) =
      chunk :: (pySplitOn '>' (mkFasta records)).drop 1 := by
  match records with
  | [] =>
      rw [show mkFasta [] = [] from rfl, List.append_nil,
        pySplitOn_no_sep '>' chunk fun x hx hc => h (hc ▸ hx)]
      rfl
  | q :: rest =>
      have hm : mkFasta (q :: rest) = '>' :: (q.1 ++ '\n' :: q.2 ++ mkFasta rest) := by
        simp [mkFasta, mkFastaRecord, List.append_assoc]
      rw [hm, pySplitOn_append_sep '>' chunk _ fun x hx hc => h (hc ▸ hx)]
      rw [pySplitOn, if_pos rfl, List.drop_one, List.tail_cons]

theorem parse_mkFasta (records : List (List Char × List Char))
    (h : ∀ p ∈ records, ('>' : Char) ∉ p.1 ∧ ('\n' : Char) ∉ p.1 ∧ ('>' : Char) ∉ p.2) :
    parse_fasta (mkFasta records) = records.map (fun p => stripNewlines p.2) := by
  induction records with
  | nil => rfl
  | cons q rest ih =>
      obtain ⟨hq1, hq2, hq3⟩ := h q (by simp)
      have hchunk : ('>' : Char) ∉ q.1 ++ '\n' :: q.2 := by
        intro hc
        rcases List.mem_append.mp hc with hc | hc
        · exact hq1 hc
        · rcases List.mem_cons.mp hc with hc | hc
          · exact absurd hc (by decide)
          · exact hq3 hc
      have hm : mkFasta (q :: rest) = '>' :: ((q.1 ++ '\n' :: q.2) ++ mkFasta rest) := by
        rw [mkFasta, List.map_cons, List.flatten_cons, mkFastaRecord, List.cons_append]
        rfl
      rw [parse_fasta, hm, pySplitOn, if_pos rfl,
        pySplitOn_chunk_mkFasta _ rest hchunk, List.drop_one, List.tail_cons, List.map_cons,
        List.map_cons]
      congr 1
      · exact recordBody_wellformed q.1 q.2 hq2
      · have hrest := ih fun p hp => h p (by simp [hp])
        rw [parse_fasta] at hrest
        exact hrest

/-- Claim C5: the batch parse splits its input into records at every `>`
marker, keeps the records in input order, and reduces each record to
everything after its first newline with all remaining newlines stripped;
in particular, for well-formed header/body records this recovers exactly
the newline-stripped bodies in order, and parsing
`">s1\nAAAA\n>s2\nCCCC"` yields exactly `"AAAA"` then `"CCCC"`. -/
theorem fasta_parse_records :
    parse_fasta ">s1\nAAAA\n>s2\nCCCC".toList = ["AAAA".toList, "CCCC".toList] ∧
    ∀ records : List (List Char × List Char),
      (∀ p ∈ records, ('>' : Char) ∉ p.1 ∧ ('\n' : Char) ∉ p.1 ∧ ('>' : Char) ∉ p.2) →
      parse_fasta (mkFasta records) = records.map (fun p => stripNewlines p.2) :=
  ⟨by decide, parse_mkFasta⟩

theorem fasta_parse_records_witness :
    parse_fasta (mkFasta [("s1".toList, "AAAA\n".toList), ("s2".toList, "CCCC".toList)]) =
      [("s1".toList, "AAAA\n".toList), ("s2".toList, "CCCC".toList)].map
        (fun p => stripNewlines p.2) :=
  fasta_parse_records.2 _ (by decide)

theorem processOne_rendered_eq (oracle : List Char → NetOutcome) (s : List Char)
    (hbody : ∀ t status reason body, oracle t = NetOutcome.response status reason body →
      httpStatusIsError status = false → body ≠ []) :
    isRendered (processOne oracle s) = predictionSucceeds oracle s := by
  rw [processOne, predictionSucceeds]
  by_cases hlen : s.length > 1500
  · rw [if_pos hlen]
    have : decide (s.length ≤ 1500) = false := by simp; omega
    rw [this]
    rfl
  · rw [if_neg hlen]
    have h1500 : decide (s.length ≤ 1500) = true := by simp; omega
    rw [h1500, Bool.true_and]
    by_cases hval : validate_sequence s = true
    · rw [hval, Bool.not_true, if_neg (by simp), Bool.true_and]
      match ho : oracle s with
      | .exn m => simp [predict_structure_api, ho, pyTruthy, isRendered]
      | .response status reason body =>
          by_cases herr : httpStatusIsError status = true
          · simp [predict_structure_api, ho, herr, pyTruthy, isRendered]
          · have hb := hbody s status reason body ho (by simpa using herr)
            simp [predict_structure_api, ho, herr, pyTruthy, isRendered, hb]
    · rw [show validate_sequence s = false from by simpa using hval]
      simp [isRendered]

/-- Claim C3: the batch loop touches every sequence of the batch, each
independently of the others, so one invalid or failing sequence never
aborts the rest; and (given that successful responses of the service carry
a non-empty body) the summary, when shown, counts exactly the sequences
whose prediction succeeded out of the total submitted — e.g. 2 of 3 when
one of three predictions fails. -/
theorem batch_independent_summary (oracle : List Char → NetOutcome)
    (seqs : List (List Char))
    (hbody : ∀ t status reason body, oracle t = NetOutcome.response status reason body →
      httpStatusIsError status = false → body ≠ []) :
    (processBatch oracle seqs).length = seqs.length ∧
    (∀ i : Nat, (processBatch oracle seqs)[i]? = (seqs[i]?).map (processOne oracle)) ∧
    countRendered (processBatch oracle seqs) = seqs.countP (predictionSucceeds oracle) ∧
    batchSummary (processBatch oracle seqs) seqs.length =
      (if seqs.countP (predictionSucceeds oracle) > 0 then
        some (seqs.countP (predictionSucceeds oracle), seqs.length) else none) := by
  have hcount : countRendered (processBatch oracle seqs) =
      seqs.countP (predictionSucceeds oracle) := by
    rw [countRendered, processBatch, List.countP_map]
    exact List.countP_congr fun s _ => by
      simp only [Function.comp_apply]
      rw [processOne_rendered_eq oracle s hbody]
  refine ⟨by rw [processBatch, List.length_map], ?_, hcount, ?_⟩
  · intro i
    rw [processBatch, List.getElem?_map]
  · rw [batchSummary, hcount]

theorem batch_independent_summary_witness :
    batchSummary (processBatch demoOracle ["AAAA".toList, "CCCC".toList, "DDDD".toList])
      ["AAAA".toList, "CCCC".toList, "DDDD".toList].length = some (2, 3) := by
  have hb : ∀ t status reason body, demoOracle t = NetOutcome.response status reason body →
      httpStatusIsError status = false → body ≠ [] := by
    intro t status reason body h hs
    simp only [demoOracle] at h
    split at h
    · exact NetOutcome.noConfusion h
    · injection h with h1 h2 h3
      subst h3
      decide
  rw [(batch_independent_summary demoOracle
    ["AAAA".toList, "CCCC".toList, "DDDD".toList] hb).2.2.2]
  decide

theorem counterStep_keys (acc : List (Char × Nat)) (c : Char) :
    (counterStep acc c).map Prod.fst = keysStep (acc.map Prod.fst) c := by
  have hcond : ((acc.map Prod.fst).any fun x => x == c) = acc.any fun p => p.1 == c := by
    induction acc with
    | nil => rfl
    | cons q t ih => rw [List.map_cons, List.any_cons, List.any_cons, ih]
  rw [counterStep, keysStep, seenHas, hcond]
  split
  · rw [List.map_map]
    exact List.map_congr_left fun p _ => by
      simp only [Function.comp_apply]
      split <;> rfl
  · rw [List.map_append]
    rfl

theorem foldl_keysStep (s : List Char) : ∀ K, List.foldl keysStep K s = K ++ firstOccAux K s := by
  induction s with
  | nil =>
      intro K
      simp [firstOccAux]
  | cons c cs ih =>
      intro K
      rw [List.foldl_cons, firstOccAux]
      by_cases h : seenHas K c = true
      · rw [if_pos h, show keysStep K c = K from by rw [keysStep, if_pos h], ih K]
      · have hf : seenHas K c = false := by simpa using h
        rw [if_neg h, show keysStep K c = K ++ [c] from by rw [keysStep, if_neg h],
          ih (K ++ [c]), List.append_assoc]
        rfl

theorem foldl_counterStep_keys (s : List Char) : ∀ acc : List (Char × Nat),
    (List.foldl counterStep acc s).map Prod.fst = List.foldl keysStep (acc.map Prod.fst) s := by
  induction s with
  | nil => intro acc; rfl
  | cons c cs ih =>
      intro acc
      rw [List.foldl_cons, List.foldl_cons, ih, counterStep_keys]

theorem lookupCnt_zero (acc : List (Char × Nat)) (c : Char)
    (h : acc.any (fun p => p.1 == c) = false) : lookupCnt acc c = 0 := by
  induction acc with
  | nil => rfl
  | cons q t ih =>
      rw [List.any_cons, Bool.or_eq_false_iff] at h
      rw [lookupCnt, if_neg ?_]
      · exact ih h.2
      · intro he
        rw [he] at h
        simp at h

theorem lookupCnt_map_inc (acc : List (Char × Nat)) (c d : Char) :
    lookupCnt (acc.map (fun p => if p.1 == c then (p.1, p.2 + 1) else p)) d =
      lookupCnt acc d +
        (if d = c ∧ acc.any (fun p => p.1 == d) = true then 1 else 0) := by
  induction acc with
  | nil => simp [lookupCnt]
  | cons q t ih =>
      obtain ⟨a, b⟩ := q
      rw [List.map_cons, List.any_cons]
      by_cases hac : a = c
      · subst hac
        rw [show (if (((a, b) : Char × Nat).1 == a) = true then ((a, b).1, (a, b).2 + 1)
            else (a, b)) = (a, b + 1) from by simp]
        by_cases had : a = d
        · subst had
          rw [lookupCnt, lookupCnt, if_pos rfl, if_pos rfl,
            if_pos ⟨rfl, by simp⟩]
        · rw [lookupCnt, lookupCnt, if_neg (fun h => had h), if_neg (fun h => had h), ih]
          have hda : ¬d = a := fun h => had h.symm
          rw [if_neg (fun h => hda h.1), if_neg (fun h => hda h.1)]
      · rw [show (if (((a, b) : Char × Nat).1 == c) = true then ((a, b).1, (a, b).2 + 1)
            else (a, b)) = (a, b) from by simp [hac]]
        by_cases had : a = d
        · subst had
          have hna : ¬(a = c ∧ ((((a, b) : Char × Nat).1 == a) || t.any fun p => p.1 == a)
              = true) := fun h => hac h.1
          rw [lookupCnt, lookupCnt, if_pos rfl, if_pos rfl, if_neg hna, Nat.add_zero]
        · rw [lookupCnt, lookupCnt, if_neg (fun h => had h), if_neg (fun h => had h), ih]
          have hq : ((a : Char) == d) = false := by
            rw [beq_eq_false_iff_ne]
            exact had
          rw [show (((a, b) : Char × Nat).1 == d) = false from hq]
          rw [Bool.false_or]

theorem lookupCnt_append_one (acc : List (Char × Nat)) (c d : Char) :
    lookupCnt (acc ++ [(c, 1)]) d =
      (if acc.any (fun p => p.1 == d) = true then lookupCnt acc d
        else (if c = d then 1 else 0)) := by
  induction acc with
  | nil => simp [lookupCnt]
  | cons q t ih =>
      rw [List.cons_append, lookupCnt, lookupCnt, List.any_cons]
      by_cases hqd : q.1 = d
      · rw [if_pos hqd, if_pos hqd, if_pos (by simp [hqd])]
      · have hq : (q.1 == d) = false := by
          rw [beq_eq_false_iff_ne]
          exact hqd
        rw [if_neg hqd, if_neg hqd, ih, hq, Bool.false_or]

theorem counterStep_lookupCnt (acc : List (Char × Nat)) (c d : Char) :
    lookupCnt (counterStep acc c) d = lookupCnt acc d + (if c = d then 1 else 0) := by
  rw [counterStep]
  by_cases hA : acc.any (fun p => p.1 == c) = true
  · rw [if_pos hA, lookupCnt_map_inc]
    by_cases hdc : d = c
    · subst hdc
      simp [hA]
    · have : ¬(c = d) := fun h => hdc h.symm
      simp [hdc, this]
  · have hA' : acc.any (fun p => p.1 == c) = false := by
      rw [Bool.eq_false_iff]
      exact hA
    rw [if_neg hA, lookupCnt_append_one]
    by_cases hdc : c = d
    · subst hdc
      rw [if_neg (by rw [hA']; exact Bool.false_ne_true), if_pos rfl,
        lookupCnt_zero acc c hA']
    · by_cases hB : acc.any (fun p => p.1 == d) = true
      · rw [if_pos hB, if_neg hdc, Nat.add_zero]
      · have hB' : acc.any (fun p => p.1 == d) = false := by
          rw [Bool.eq_false_iff]
          exact hB
        rw [if_neg hB, if_neg hdc, lookupCnt_zero acc d hB', Nat.add_zero]

theorem foldl_counterStep_lookupCnt (s : List Char) : ∀ (acc : List (Char × Nat)) (d : Char),
    lookupCnt (List.foldl counterStep acc s) d = lookupCnt acc d + s.count d := by
  induction s with
  | nil =>
      intro acc d
      simp
  | cons c cs ih =>
      intro acc d
      rw [List.foldl_cons, ih, counterStep_lookupCnt, List.count_cons]
      by_cases h : c = d
      · subst h
        rw [if_pos rfl, if_pos (by simp)]
        omega
      · have hb : (c == d) = false := by
          rw [beq_eq_false_iff_ne]
          exact h
        rw [hb, if_neg h]
        simp only [Bool.false_eq_true, if_false]
        omega

theorem find?_of_any (acc : List (Char × Nat)) (c : Char)
    (h : acc.any (fun p => p.1 == c) = true) :
    acc.find? (fun p => p.1 == c) = some (c, lookupCnt acc c) := by
  induction acc with
  | nil => simp at h
  | cons q t ih =>
      obtain ⟨a, b⟩ := q
      rw [List.any_cons] at h
      by_cases hq : ((a : Char) == c) = true
      · have hqc : a = c := by simpa using hq
        subst hqc
        rw [List.find?_cons]
        simp [lookupCnt]
      · have hq' : ((a : Char) == c) = false := by
          rw [Bool.eq_false_iff]
          exact hq
        rw [List.find?_cons]
        simp only [hq']
        rw [lookupCnt, if_neg (by simpa using hq')]
        apply ih
        rw [hq'] at h
        simpa using h

/-- Claim C6: the composition mapping counts each letter of the input
after normalisation to upper case, aggregating the two letter cases; its
key order is the first-appearance order of the normalised letters in the
input; and both `"AAB"` and `"aAb"` yield `{A: 2, B: 1}`. -/
theorem composition_counts :
    describeComposition "AAB".toList = [('A', 2), ('B', 1)] ∧
    describeComposition "aAb".toList = [('A', 2), ('B', 1)] ∧
    (∀ s, (describeComposition s).map Prod.fst = firstOccurrences (pyUpper s)) ∧
    (∀ s c, c ∈ pyUpper s →
      (describeComposition s).find? (fun p => p.1 == c) =
        some (c, (pyUpper s).count c)) := by
  refine ⟨by decide, by decide, ?_, ?_⟩
  · intro s
    rw [describeComposition, pyCounter, foldl_counterStep_keys, firstOccurrences]
    rw [show (([] : List (Char × Nat)).map Prod.fst) = [] from rfl, foldl_keysStep]
    rfl
  · intro s c hc
    have hl : lookupCnt (pyCounter (pyUpper s)) c = (pyUpper s).count c := by
      rw [pyCounter, foldl_counterStep_lookupCnt,
        show lookupCnt [] c = 0 from rfl, Nat.zero_add]
    have hcount : (pyUpper s).count c ≠ 0 := by
      have := List.count_pos_iff.mpr hc
      omega
    have hany : (pyCounter (pyUpper s)).any (fun p => p.1 == c) = true := by
      by_contra hno
      have hz : lookupCnt (pyCounter (pyUpper s)) c = 0 :=
        lookupCnt_zero _ c (Bool.eq_false_iff.mpr hno)
      rw [hl] at hz
      exact hcount hz
    rw [describeComposition, find?_of_any _ c hany, hl]

theorem composition_counts_witness :
    (describeComposition "AAB".toList).find? (fun p => p.1 == 'A') =
      some ('A', (pyUpper "AAB".toList).count 'A') :=
  composition_counts.2.2.2 "AAB".toList 'A' (by decide)

end ProteinScape
